import Mathlib

/-!
Verification of the GMT FEM transfer-function engine
(`gmt-fem-transfer-functions`).

The development shallowly embeds the Rust sources:

* `src/structural.rs` — the `Structural` modal state-space model and its two
  frequency-response evaluators (`nalgebra` rank-1 fold and `faer`
  `C * diag(d) * B` matmul), plus the `StructuralBuilder` with its
  eigen-frequency window computation;
* `src/frequency_response.rs` — the `Frequencies` sampling options, the
  `FrequencyResponse` sweep driver and the elementary filters;
* `src/data.rs` — `FrequencyResponseData` / `FrequencyResponseVec`;
* `src/cli.rs` — `Cli::fem_outputs` virtual-output expansion.

Real (`f64`) arithmetic is modelled by `ℝ` (complex by `ℂ`); quantities that
only ever flow through order comparisons and indexing (the eigen-frequencies
in Hz used by the mode window) are modelled by `ℚ` so that concrete runs of
the builder are decidable.  Dynamically shaped `nalgebra`/`faer` matrices are
modelled by `Fin`-indexed `Matrix` types in the modal layer (where the claims
fix the shapes) and by `List (List _)` in the builder layer (where pruning
changes shapes at run time).
-/

namespace GmtFem

/-! ## Modal layer: `Structural` and its two `j_omega` evaluators
(`src/structural.rs`, lines 31-84 and 377-460). -/

/-- Static gain mismatch compensation scheme (`StaticGainCompensation`,
structural.rs lines 31-38): an optional delay in seconds and a complex
`delta_gain` matrix of shape outputs × inputs. -/
structure StaticGainCompensation (U Y : ℕ) where
  delay : Option ℝ
  delta_gain : Matrix (Fin Y) (Fin U) ℂ

/-- The FEM structural dynamic model (`Structural`, structural.rs lines
52-84), with `M` modes, `U` inputs, `Y` mechanical outputs and `K` optical
outputs.  `b` is the modal forces matrix (modes × inputs), `c` the modal
displacements matrix (outputs × modes), `w` the eigen frequencies in rad/s,
`z` the damping coefficient.  The `faer` variant of the source stores `b`,
`c` and `optical_senses` as complex matrices whose entries are the same real
values promoted with zero imaginary part; the model keeps the real data once
and promotes at use sites. -/
structure Structural (U Y M K : ℕ) where
  inputs : List String
  outputs : List String
  b : Matrix (Fin M) (Fin U) ℝ
  c : Matrix (Fin Y) (Fin M) ℝ
  g_ssol : Option (Matrix (Fin Y) (Fin U) ℝ)
  static_gain_mismatch : Option (StaticGainCompensation U Y)
  w : Fin M → ℝ
  z : ℝ
  optical_senses : Option (Matrix (Fin K) (Fin Y) ℝ)

/-- The `nalgebra` frequency response of `Structural`
(structural.rs lines 377-419): a fold over the modes, in increasing mode
index order, accumulating the rank-1 matrix `c_i * b_i` scaled by
`1 / (w_i*w_i + jw*jw + 2*z*w_i*jw)`, followed by the optional static gain
mismatch correction and the optional optical sensitivity product.  The
source returns a dynamically shaped `DMatrix`; the sum type records whether
the optical branch (shape `K × U`) or the mechanical branch (shape `Y × U`)
was taken. -/
noncomputable def Structural.j_omega {U Y M K : ℕ} (s : Structural U Y M K) (jw : ℂ) :
    Matrix (Fin Y) (Fin U) ℂ ⊕ Matrix (Fin K) (Fin U) ℂ :=
  let fr : Matrix (Fin Y) (Fin U) ℂ :=
    (List.finRange M).foldl
      (fun a i =>
        a + Matrix.of fun y u =>
          ((s.c y i * s.b i u : ℝ) : ℂ) *
            (1 / (((s.w i * s.w i : ℝ) : ℂ) + jw * jw +
              ((2 * s.z * s.w i : ℝ) : ℂ) * jw)))
      0
  let fr2 : Matrix (Fin Y) (Fin U) ℂ :=
    match s.static_gain_mismatch with
    | some sgm =>
      match sgm.delay with
      | none => fr + sgm.delta_gain
      | some t_s => fr + Complex.exp (-jw * (t_s : ℂ)) • sgm.delta_gain
    | none => fr
  match s.optical_senses with
  | some mat => Sum.inr ((mat.map fun x => (x : ℂ)) * fr2)
  | none => Sum.inl fr2

/-- The `faer` frequency response of `Structural`
(structural.rs lines 420-460): the reciprocal modal denominators `rode` form
a diagonal matrix and the response is the matrix product
`c * (diag(rode) * b)`; the static-gain-mismatch correction is commented out
in this variant, and the optional optical sensitivity product follows. -/
noncomputable def Structural.j_omega_faer {U Y M K : ℕ} (s : Structural U Y M K) (jw : ℂ) :
    Matrix (Fin Y) (Fin U) ℂ ⊕ Matrix (Fin K) (Fin U) ℂ :=
  let rode : Fin M → ℂ := fun i =>
    1 / (((s.w i * s.w i : ℝ) : ℂ) + jw * jw + ((2 * s.z * s.w i : ℝ) : ℂ) * jw)
  let fr : Matrix (Fin Y) (Fin U) ℂ :=
    (s.c.map fun x => (x : ℂ)) * (Matrix.diagonal rode * (s.b.map fun x => (x : ℂ)))
  match s.optical_senses with
  | some mat => Sum.inr ((mat.map fun x => (x : ℂ)) * fr)
  | none => Sum.inl fr

/-- Folding matrix additions over a list equals the initial value plus the
sum of the mapped list. -/
theorem foldl_add_eq_sum {ι : Type} {Y U : ℕ}
    (g : ι → Matrix (Fin Y) (Fin U) ℂ) :
    ∀ (l : List ι) (init : Matrix (Fin Y) (Fin U) ℂ),
      l.foldl (fun a i => a + g i) init = init + (l.map g).sum := by
  intro l
  induction l with
  | nil => intro init; simp
  | cons x t ih =>
    intro init
    simp only [List.foldl_cons, List.map_cons, List.sum_cons, ih, add_assoc]

/-- The accumulated modal fold of `j_omega` written as a `Finset` sum over
the mode indices. -/
theorem j_omega_fold_eq_sum {U Y M : ℕ} (g : Fin M → Matrix (Fin Y) (Fin U) ℂ) :
    (List.finRange M).foldl (fun a i => a + g i) 0 = ∑ i : Fin M, g i := by
  rw [foldl_add_eq_sum, zero_add, Fin.sum_univ_def]

/-- C1: with `static_gain_mismatch` and `optical_senses` both absent,
`Structural::j_omega` (the `nalgebra` evaluator, structural.rs lines
382-418) returns the `Y × U` complex matrix equal to the modal-superposition
sum over all `M` modes of `(c_i * b_i) / (w_i^2 + jw^2 + 2*z*w_i*jw)`, where
`c_i` is the i-th column of `C` and `b_i` the i-th row of `B`.  The source
accumulates the terms by a fold in increasing mode-index order, whose value
is the stated (commutative) sum. -/
theorem j_omega_modal_superposition {U Y M K : ℕ} (s : Structural U Y M K) (jw : ℂ)
    (h1 : s.static_gain_mismatch = none) (h2 : s.optical_senses = none) :
    s.j_omega jw = Sum.inl (∑ i : Fin M, Matrix.of fun y u =>
      ((s.c y i * s.b i u : ℝ) : ℂ) /
        ((s.w i : ℂ) ^ 2 + jw ^ 2 + 2 * (s.z : ℂ) * (s.w i : ℂ) * jw)) := by
  simp only [Structural.j_omega, h1, h2]
  rw [j_omega_fold_eq_sum]
  congr 1
  apply Finset.sum_congr rfl
  intro i _
  ext y u
  simp only [Matrix.of_apply]
  rw [mul_one_div]
  congr 1
  push_cast
  ring

/-- A concrete 1-input, 1-output, 1-mode structural model with no
static-gain-mismatch correction and no optical sensitivity. -/
noncomputable def exStructural : Structural 1 1 1 0 where
  inputs := ["OSS_ElDrive_Torque"]
  outputs := ["OSS_ElEncoder_Angle"]
  b := Matrix.of fun _ _ => 1
  c := Matrix.of fun _ _ => 2
  g_ssol := none
  static_gain_mismatch := none
  w := fun _ => 3
  z := 2 / 100
  optical_senses := none

/-- C1 witness: the modal-superposition identity evaluated on the concrete
model `exStructural` at `jw = I`. -/
theorem j_omega_modal_superposition_witness :
    exStructural.j_omega Complex.I = Sum.inl (∑ i : Fin 1, Matrix.of fun y u =>
      ((exStructural.c y i * exStructural.b i u : ℝ) : ℂ) /
        ((exStructural.w i : ℂ) ^ 2 + Complex.I ^ 2 +
          2 * (exStructural.z : ℂ) * (exStructural.w i : ℂ) * Complex.I)) :=
  j_omega_modal_superposition exStructural Complex.I rfl rfl

/-- C2: with no static-gain-mismatch correction, the rank-1-sum formulation
(`nalgebra` `j_omega`) and the `C * diag(d) * B` formulation with
`d_i = 1 / (w_i^2 + jw^2 + 2*z*w_i*jw)` (`faer` `j_omega`) produce exactly
the same matrix — in real-number semantics the two formulations are equal,
which is stronger than the claimed agreement to `1e-9` relative error. -/
theorem j_omega_rank1_eq_diag {U Y M K : ℕ} (s : Structural U Y M K) (jw : ℂ)
    (h : s.static_gain_mismatch = none) :
    s.j_omega jw = s.j_omega_faer jw := by
  have key : ((List.finRange M).foldl
      (fun a i =>
        a + Matrix.of fun y u =>
          ((s.c y i * s.b i u : ℝ) : ℂ) *
            (1 / (((s.w i * s.w i : ℝ) : ℂ) + jw * jw +
              ((2 * s.z * s.w i : ℝ) : ℂ) * jw)))
      0 : Matrix (Fin Y) (Fin U) ℂ) =
      (s.c.map fun x => (x : ℂ)) *
        (Matrix.diagonal (fun i => 1 / (((s.w i * s.w i : ℝ) : ℂ) + jw * jw +
          ((2 * s.z * s.w i : ℝ) : ℂ) * jw)) * (s.b.map fun x => (x : ℂ))) := by
    rw [j_omega_fold_eq_sum]
    ext y u
    rw [Matrix.mul_apply]
    simp only [Matrix.sum_apply, Matrix.of_apply, Matrix.map_apply,
      Matrix.diagonal_mul]
    apply Finset.sum_congr rfl
    intro i _
    push_cast
    ring
  simp only [Structural.j_omega, Structural.j_omega_faer, h, key]

/-- A concrete structural model with an optical sensitivity matrix attached
(two optical outputs composed from the single mechanical output) and no
static-gain-mismatch correction. -/
noncomputable def exStructuralOpt : Structural 1 1 1 2 where
  inputs := ["OSS_ElDrive_Torque"]
  outputs := ["OSSM1Lcl"]
  b := Matrix.of fun _ _ => 1
  c := Matrix.of fun _ _ => 2
  g_ssol := none
  static_gain_mismatch := none
  w := fun _ => 3
  z := 2 / 100
  optical_senses := some (Matrix.of fun _ _ => 5)

/-- C2 witness: the two formulations agree on the concrete model
`exStructuralOpt` (exercising the optical-sensitivity branch) at
`jw = 2 * I`. -/
theorem j_omega_rank1_eq_diag_witness :
    exStructuralOpt.j_omega (2 * Complex.I) =
      exStructuralOpt.j_omega_faer (2 * Complex.I) :=
  j_omega_rank1_eq_diag exStructuralOpt (2 * Complex.I) rfl

/-! ## Builder layer: `StructuralBuilder::build` and the eigen-frequency
window (`src/structural.rs`, lines 119-328).  Eigen frequencies in Hz flow
only through order comparisons and indexing, so they are modelled by `ℚ`;
matrix entries and the rad/s frequencies stay in `ℝ`.  Matrices are
`List (List ℝ)` (row-major) because mode pruning changes their shapes at
run time. -/

namespace Bld

/-- First index whose eigen frequency satisfies `min ≤ f`
(structural.rs `fem.eigen_frequencies.iter().enumerate().find(|(_, f)| *f >= min)`
followed by `unwrap_or_default().0`, which yields index 0 when no frequency
qualifies). -/
def findGeIdx (min : ℚ) (fs : List ℚ) : ℕ :=
  (fs.findIdx? fun f => decide (min ≤ f)).getD 0

/-- Index of the last element of `l.enumerate()` plus one
(structural.rs `.enumerate().last().unwrap_or_default().0 + 1`): the length
of `l` when `l` is non-empty, and `0 + 1 = 1` when `l` is empty because
`unwrap_or_default` produces the pair `(0, 0.0)`. -/
def lastIdxSucc (l : List ℚ) : ℕ :=
  (l.enum.getLast?.getD (0, 0)).fst + 1

/-- The mode window `q` computed by `StructuralBuilder::build`
(structural.rs lines 253-296): `some (s, n)` selects the mode index range
`[s, s+n)`; `none` (both bounds absent) keeps every mode. -/
def modeRange (minF maxF : Option ℚ) (fs : List ℚ) : Option (ℕ × ℕ) :=
  match minF, maxF with
  | some min, some max =>
    some (findGeIdx min fs,
      lastIdxSucc (fs.filter fun f => decide (min ≤ f) && decide (f ≤ max)))
  | none, some max =>
    some (0, lastIdxSucc (fs.filter fun f => decide (f ≤ max)))
  | some min, none =>
    let s := findGeIdx min fs
    some (s, fs.length - s)
  | none, none => none

/-- An eigen frequency (Hz) lies inside the requested window: at least
`f_min` when a lower bound is present and at most `f_max` when an upper
bound is present. -/
def inWindowB (minF maxF : Option ℚ) (f : ℚ) : Bool :=
  minF.all (fun lo => decide (lo ≤ f)) && maxF.all (fun hi => decide (f ≤ hi))

/-- Mode index `i` is retained by the window computed by the builder:
inside `[s, s+n)` when `modeRange` prunes, and always when both bounds are
absent. -/
def retainedB (minF maxF : Option ℚ) (fs : List ℚ) (i : ℕ) : Bool :=
  match modeRange minF maxF fs with
  | none => true
  | some (s, n) => decide (s ≤ i) && decide (i < s + n)

/-- Static gain mismatch compensation at the builder layer (dynamic
shapes). -/
structure StaticGainCompensationD where
  delay : Option ℝ
  delta_gain : List (List ℂ)

/-- The structural model at the builder layer (structural.rs lines 52-84)
with dynamically shaped matrices: `b` is modes × inputs, `c` is
outputs × modes, both row-major. -/
structure StructuralD where
  inputs : List String
  outputs : List String
  b : List (List ℝ)
  c : List (List ℝ)
  g_ssol : Option (List (List ℝ))
  static_gain_mismatch : Option StaticGainCompensationD
  w : List ℝ
  z : ℝ
  optical_senses : Option (List (List ℝ))

/-- `Default::default()` for the builder-layer structural model: empty
labels and matrices, absent options, zero damping. -/
def StructuralD.default : StructuralD :=
  { inputs := [], outputs := [], b := [], c := [], g_ssol := none,
    static_gain_mismatch := none, w := [], z := 0, optical_senses := none }

/-- The FEM structural dynamic model builder (structural.rs lines
119-130). -/
structure StructuralBuilder where
  built : StructuralD
  min_eigen_frequency : Option ℚ
  max_eigen_frequency : Option ℚ
  file_name : String

/-- `StructuralBuilder::new` (structural.rs lines 179-191): records the
requested input and output channel names, the default damping `2/100`, and
the default file name. -/
noncomputable def StructuralBuilder.new (inputs outputs : List String) : StructuralBuilder :=
  { built := { StructuralD.default with
                inputs := inputs
                outputs := outputs
                z := 2 / 100 }
    min_eigen_frequency := none
    max_eigen_frequency := none
    file_name := "structural" }

/-- The builder assembled by `TryFrom<&Cli> for Structural` (lib.rs): the
CLI channel names, damping and optical sensitivities are written into
`built` and the remaining fields come from `Default::default()` (so
`static_gain_mismatch` is `None` and `file_name` is empty). -/
noncomputable def structuralBuilderFromCli (inputs outputs : List String) (z : ℝ)
    (optical_senses : Option (List (List ℝ))) (minF maxF : Option ℚ) :
    StructuralBuilder :=
  { built := { StructuralD.default with
                inputs := inputs
                outputs := outputs
                z := z
                optical_senses := optical_senses }
    min_eigen_frequency := minF
    max_eigen_frequency := maxF
    file_name := "" }

/-- The raw FEM, an external collaborator (`gmt_fem::FEM`).  The model
records the channel-name registry used by the gating switchboard and the
data the builder reads after gating: `inputs2modes` (modes × inputs),
`modes2outputs` (outputs × modes), the eigen frequencies in Hz, and the
optional reduced static gain. -/
structure FEM where
  input_names : List String
  output_names : List String
  eigen_frequencies : List ℚ
  inputs2modes : List (List ℝ)
  modes2outputs : List (List ℝ)
  reduced_static_gain : Option (List (List ℝ))

/-- `FEM::eigen_frequencies_to_radians`: Hz times `2π`. -/
noncomputable def FEM.eigen_frequencies_to_radians (fem : FEM) : List ℝ :=
  fem.eigen_frequencies.map fun f => 2 * Real.pi * (f : ℝ)

/-- `StructuralBuilder::build` (structural.rs lines 192-327): gate the FEM
inputs and outputs by name (an unknown name is a FEM error), extract `b`,
`c`, the reduced static gain and the rad/s eigen frequencies, compute the
mode window `q`, and either slice `b` rows, `c` columns and `w` by
`[s, s+n)` or keep them whole; every other field of the result comes from
`self.built` (the `..self.built` struct update). -/
noncomputable def StructuralBuilder.build (bld : StructuralBuilder) (fem : FEM) :
    Except String StructuralD :=
  if ¬ bld.built.inputs.all (fun name => fem.input_names.contains name) then
    .error ("inputs do not match model")
  else if ¬ bld.built.outputs.all (fun name => fem.output_names.contains name) then
    .error ("outputs do not match model")
  else
    let b := fem.inputs2modes
    let c := fem.modes2outputs
    let g_ssol := fem.reduced_static_gain
    let w := fem.eigen_frequencies_to_radians
    match modeRange bld.min_eigen_frequency bld.max_eigen_frequency
        fem.eigen_frequencies with
    | some (s, n) =>
      .ok { bld.built with
            b := (b.drop s).take n,
            c := c.map fun row => (row.drop s).take n,
            g_ssol := g_ssol,
            w := (w.drop s).take n }
    | none =>
      .ok { bld.built with b := b, c := c, g_ssol := g_ssol, w := w }

/-- The first index of the enumeration of a non-empty list, counted from
`k`, reaches `k + (length - 1)` at the last position. -/
theorem enumFrom_getLast_fst :
    ∀ (t : List ℚ) (k : ℕ) (a : ℚ),
      (((List.enumFrom k (a :: t)).getLast?).getD (0, 0)).fst = k + t.length := by
  intro t
  induction t with
  | nil => intro k a; rfl
  | cons b t2 ih =>
    intro k a
    show (((List.enumFrom k (a :: b :: t2)).getLast?).getD (0, 0)).fst = _
    rw [show List.enumFrom k (a :: b :: t2)
        = (k, a) :: List.enumFrom (k + 1) (b :: t2) from rfl]
    rw [show List.enumFrom (k + 1) (b :: t2)
        = (k + 1, b) :: List.enumFrom (k + 2) t2 from rfl]
    rw [List.getLast?_cons_cons]
    have := ih (k + 1) b
    rw [show List.enumFrom (k + 1) (b :: t2)
        = (k + 1, b) :: List.enumFrom (k + 2) t2 from rfl] at this
    rw [this]
    simp [List.length_cons]
    omega

/-- `lastIdxSucc` of a non-empty list is its length. -/
theorem lastIdxSucc_of_ne_nil {l : List ℚ} (h : l ≠ []) :
    lastIdxSucc l = l.length := by
  match l, h with
  | a :: t, _ =>
    show ((((a :: t).enum).getLast?).getD (0, 0)).fst + 1 = t.length + 1
    rw [show (a :: t).enum = List.enumFrom 0 (a :: t) from rfl,
      enumFrom_getLast_fst t 0 a]
    omega

/-- `lastIdxSucc` of the empty list is `1` (the `unwrap_or_default` slip in
the source). -/
theorem lastIdxSucc_nil : lastIdxSucc ([] : List ℚ) = 1 := rfl

/-- Characterisation of `findGeIdx` when some eigen frequency does reach
the lower bound: it is the first index whose frequency does. -/
theorem findGeIdx_spec (lo : ℚ) (fs : List ℚ) (h : ∃ f ∈ fs, lo ≤ f) :
    ∃ hlt : findGeIdx lo fs < fs.length,
      lo ≤ fs.get ⟨findGeIdx lo fs, hlt⟩ ∧
        ∀ j (hj : j < findGeIdx lo fs),
          ¬ lo ≤ fs.get ⟨j, Nat.lt_trans hj hlt⟩ := by
  obtain ⟨f, hf, hlof⟩ := h
  have hex : ∃ x, x ∈ fs ∧ (fun g => decide (lo ≤ g)) x := ⟨f, hf, by simpa⟩
  have hsome := List.findIdx?_eq_some_of_exists hex
  have hchar := List.findIdx?_eq_some_iff_getElem.mp hsome
  obtain ⟨hlt, hp, hmin⟩ := hchar
  have hidx : findGeIdx lo fs = fs.findIdx fun g => decide (lo ≤ g) := by
    unfold findGeIdx
    rw [hsome]
    rfl
  refine ⟨by rw [hidx]; exact hlt, ?_, ?_⟩
  · rw [List.get_eq_getElem]
    simp only [hidx]
    exact of_decide_eq_true hp
  · intro j hj
    rw [List.get_eq_getElem]
    have := hmin j (by rwa [hidx] at hj)
    simpa using this

/-- In a strictly sorted list, values are monotone in the index. -/
theorem sorted_get_le {fs : List ℚ} (hs : fs.Sorted (· < ·)) {i j : ℕ}
    (hij : i ≤ j) (hj : j < fs.length) :
    fs.get ⟨i, Nat.lt_of_le_of_lt hij hj⟩ ≤ fs.get ⟨j, hj⟩ := by
  rcases Nat.lt_or_ge i j with hlt | hge
  · exact le_of_lt (hs.rel_get_of_lt (by simpa using hlt))
  · have : i = j := Nat.le_antisymm hij hge
    subst this
    exact le_refl _

/-- In a strictly sorted list, an index is below the length of the
`f ≤ hi` filtration exactly when its value satisfies the bound. -/
theorem filter_le_length_iff (hi : ℚ) :
    ∀ (fs : List ℚ), fs.Sorted (· < ·) → ∀ i (h : i < fs.length),
      (i < (fs.filter fun f => decide (f ≤ hi)).length ↔
        fs.get ⟨i, h⟩ ≤ hi) := by
  intro fs
  induction fs with
  | nil => intro _ i h; exact absurd h (Nat.not_lt_zero i)
  | cons a t ih =>
    intro hs i h
    rw [List.sorted_cons] at hs
    obtain ⟨ha, hts⟩ := hs
    by_cases hah : a ≤ hi
    · rw [List.filter_cons_of_pos (by simpa using hah)]
      cases i with
      | zero => simpa using hah
      | succ i =>
        have h2 : i < t.length := by simpa using h
        have := ih hts i h2
        simp only [List.length_cons, Nat.succ_lt_succ_iff, List.get_cons_succ]
        exact this
    · rw [List.filter_cons_of_neg (by simpa using hah)]
      have hnil : t.filter (fun f => decide (f ≤ hi)) = [] := by
        rw [List.filter_eq_nil_iff]
        intro x hx
        have : a < x := ha x hx
        simp only [decide_eq_true_eq]
        intro hxle
        exact hah (le_of_lt (lt_of_lt_of_le this hxle))
      rw [hnil]
      simp only [List.length_nil, Nat.not_lt_zero, false_iff]
      cases i with
      | zero => simpa using hah
      | succ i =>
        have h2 : i < t.length := by simpa using h
        simp only [List.get_cons_succ]
        have : a < t.get ⟨i, h2⟩ := ha _ (t.get_mem i h2)
        intro hle
        exact hah (le_of_lt (lt_of_lt_of_le this hle))

/-- `findGeIdx` on a cons whose head satisfies the bound is `0`. -/
theorem findGeIdx_cons_pos {lo a : ℚ} (t : List ℚ) (h : lo ≤ a) :
    findGeIdx lo (a :: t) = 0 := by
  unfold findGeIdx
  rw [show (a :: t).findIdx? (fun f => decide (lo ≤ f))
      = some 0 by simp [List.findIdx?_cons, h]]
  rfl

/-- `findGeIdx` on a cons whose head fails the bound, when some later
element satisfies it, shifts by one. -/
theorem findGeIdx_cons_neg {lo a : ℚ} (t : List ℚ) (h : ¬ lo ≤ a)
    (hex : ∃ f ∈ t, lo ≤ f) :
    findGeIdx lo (a :: t) = findGeIdx lo t + 1 := by
  have hex2 : ∃ x, x ∈ t ∧ (fun f => decide (lo ≤ f)) x = true := by
    obtain ⟨f, hf, hlof⟩ := hex
    exact ⟨f, hf, by simpa⟩
  have hsome := List.findIdx?_eq_some_of_exists hex2
  unfold findGeIdx
  rw [show (a :: t).findIdx? (fun f => decide (lo ≤ f))
      = ((t.findIdx? (fun f => decide (lo ≤ f))).map fun k => k + 1) by
    simp [List.findIdx?_cons, h]]
  rw [hsome]
  rfl

/-- In a strictly sorted list containing at least one in-window frequency,
the index range starting at `findGeIdx` of length the two-sided filtration
captures exactly the in-window indices. -/
theorem window_both_iff (lo hi : ℚ) :
    ∀ (fs : List ℚ), fs.Sorted (· < ·) →
      (∃ f ∈ fs, lo ≤ f ∧ f ≤ hi) → ∀ i (h : i < fs.length),
      ((findGeIdx lo fs ≤ i ∧
        i < findGeIdx lo fs +
          (fs.filter fun f => decide (lo ≤ f) && decide (f ≤ hi)).length) ↔
       (lo ≤ fs.get ⟨i, h⟩ ∧ fs.get ⟨i, h⟩ ≤ hi)) := by
  intro fs
  induction fs with
  | nil => intro _ _ i h; exact absurd h (Nat.not_lt_zero i)
  | cons a t ih =>
    intro hs hne i h
    rw [List.sorted_cons] at hs
    obtain ⟨ha, hts⟩ := hs
    by_cases hla : lo ≤ a
    · rw [findGeIdx_cons_pos t hla]
      by_cases hah : a ≤ hi
      · rw [List.filter_cons_of_pos (by simp [hla, hah])]
        have hcongr : t.filter (fun f => decide (lo ≤ f) && decide (f ≤ hi))
            = t.filter (fun f => decide (f ≤ hi)) := by
          apply List.filter_congr
          intro x hx
          have : lo ≤ x := le_of_lt (lt_of_le_of_lt hla (ha x hx))
          simp [this]
        rw [hcongr]
        cases i with
        | zero => simpa using ⟨hla, hah⟩
        | succ i =>
          have h2 : i < t.length := by simpa using h
          have hmain := filter_le_length_iff hi t hts i h2
          have hlo : lo ≤ t.get ⟨i, h2⟩ :=
            le_of_lt (lt_of_le_of_lt hla (ha _ (t.get_mem i h2)))
          simp only [List.length_cons, List.get_cons_succ, Nat.zero_le,
            true_and, Nat.zero_add, Nat.succ_lt_succ_iff]
          constructor
          · intro hilt
            exact ⟨hlo, (hmain.mp hilt)⟩
          · intro ⟨_, hle⟩
            exact hmain.mpr hle
      · exfalso
        obtain ⟨f, hf, hlof, hfhi⟩ := hne
        rcases List.mem_cons.mp hf with rfl | hft
        · exact hah hfhi
        · exact hah (le_of_lt (lt_of_lt_of_le (ha f hft) hfhi))
    · have hne' : ∃ f ∈ t, lo ≤ f ∧ f ≤ hi := by
        obtain ⟨f, hf, hlof, hfhi⟩ := hne
        rcases List.mem_cons.mp hf with rfl | hft
        · exact absurd hlof hla
        · exact ⟨f, hft, hlof, hfhi⟩
      rw [findGeIdx_cons_neg t hla
        (by obtain ⟨f, hf, hlof, _⟩ := hne'; exact ⟨f, hf, hlof⟩)]
      rw [List.filter_cons_of_neg (by simp [hla])]
      cases i with
      | zero =>
        constructor
        · intro ⟨hc, _⟩; exact absurd hc (by omega)
        · intro ⟨hc, _⟩; exact absurd hc hla
      | succ i =>
        have h2 : i < t.length := by simpa using h
        have := ih hts hne' i h2
        simp only [List.get_cons_succ]
        rw [← this]
        omega

/-- In a strictly sorted list containing at least one frequency reaching
the lower bound, indices from `findGeIdx` on are exactly those whose value
reaches the bound. -/
theorem window_min_iff (lo : ℚ) (fs : List ℚ) (hs : fs.Sorted (· < ·))
    (hne : ∃ f ∈ fs, lo ≤ f) (i : ℕ) (h : i < fs.length) :
    (findGeIdx lo fs ≤ i ↔ lo ≤ fs.get ⟨i, h⟩) := by
  obtain ⟨hlt, hge, hmin⟩ := findGeIdx_spec lo fs hne
  constructor
  · intro hsi
    exact le_trans hge (sorted_get_le hs hsi h)
  · intro hloi
    by_contra hcon
    exact hmin i (Nat.lt_of_not_le hcon) hloi

end Bld

/-- C4 (amended): for a strictly sorted eigen-frequency list, provided at
least one eigenfrequency satisfies the window bounds, the mode range
`[s, s+n)` computed by `StructuralBuilder::build` is the maximal contiguous
index range whose eigenfrequencies satisfy `f ≥ f_min` and `f ≤ f_max`
(a missing bound meaning unbounded): an index is retained exactly when its
eigenfrequency lies within the bounds.  The non-emptiness proviso is forced
by `modeRange_empty_window_cex`: on an empty window the source's
`unwrap_or_default` still selects one mode (or all modes when only a lower
bound is present). -/
theorem modeRange_window_iff (minF maxF : Option ℚ) (fs : List ℚ)
    (hsort : fs.Sorted (· < ·))
    (hne : ∃ f ∈ fs, Bld.inWindowB minF maxF f = true) :
    ∀ i (hilen : i < fs.length),
      (Bld.retainedB minF maxF fs i = true ↔
        Bld.inWindowB minF maxF (fs.get ⟨i, hilen⟩) = true) := by
  intro i hilen
  rcases minF with - | lo
  case none =>
    rcases maxF with - | hi
    case none =>
      simp [Bld.retainedB, Bld.modeRange, Bld.inWindowB]
    case some =>
      have hne' : ∃ f ∈ fs, f ≤ hi := by
        obtain ⟨f, hf, hw⟩ := hne
        refine ⟨f, hf, ?_⟩
        simpa [Bld.inWindowB] using hw
      have hfilne : fs.filter (fun f => decide (f ≤ hi)) ≠ [] := by
        obtain ⟨f, hf, hw⟩ := hne'
        intro hnil
        rw [List.filter_eq_nil_iff] at hnil
        exact hnil f hf (by simpa)
      have hmain := Bld.filter_le_length_iff hi fs hsort i hilen
      simp only [Bld.retainedB, Bld.modeRange, Bld.inWindowB, Option.all_some,
        Option.all_none, Bool.true_and, Bool.and_eq_true, decide_eq_true_eq,
        Bld.lastIdxSucc_of_ne_nil hfilne]
      constructor
      · rintro ⟨-, h2⟩
        exact hmain.mp (by omega)
      · intro hle
        have := hmain.mpr hle
        exact ⟨by omega, by omega⟩
  case some =>
    rcases maxF with - | hi
    case none =>
      have hne' : ∃ f ∈ fs, lo ≤ f := by
        obtain ⟨f, hf, hw⟩ := hne
        refine ⟨f, hf, ?_⟩
        simpa [Bld.inWindowB] using hw
      obtain ⟨hlt, -, -⟩ := Bld.findGeIdx_spec lo fs hne'
      have hiff := Bld.window_min_iff lo fs hsort hne' i hilen
      simp only [Bld.retainedB, Bld.modeRange, Bld.inWindowB, Option.all_some,
        Option.all_none, Bool.and_true, Bool.and_eq_true, decide_eq_true_eq]
      constructor
      · rintro ⟨h1, -⟩
        exact hiff.mp h1
      · intro hlo
        exact ⟨hiff.mpr hlo, by omega⟩
    case some =>
      have hne' : ∃ f ∈ fs, lo ≤ f ∧ f ≤ hi := by
        obtain ⟨f, hf, hw⟩ := hne
        refine ⟨f, hf, ?_⟩
        simpa [Bld.inWindowB] using hw
      have hfilne : fs.filter (fun f => decide (lo ≤ f) && decide (f ≤ hi)) ≠ [] := by
        obtain ⟨f, hf, hw1, hw2⟩ := hne'
        intro hnil
        rw [List.filter_eq_nil_iff] at hnil
        exact hnil f hf (by simp [hw1, hw2])
      have hmain := Bld.window_both_iff lo hi fs hsort hne' i hilen
      simp only [Bld.retainedB, Bld.modeRange, Bld.inWindowB, Option.all_some,
        Option.all_none, Bool.and_eq_true, decide_eq_true_eq,
        Bld.lastIdxSucc_of_ne_nil hfilne]
      exact hmain

/-- C4 counterexample: with strictly sorted eigenfrequencies `[1, 2, 3]` Hz
and window `[10, 20]` (so `f_min ≤ f_max` and the window is empty), the
mode range computed by the builder is `[0, 1)` — it retains mode `0`, whose
eigenfrequency `1` Hz violates the lower bound — instead of the empty
maximal range, refuting the claim as stated. -/
theorem modeRange_empty_window_cex :
    Bld.modeRange (some 10) (some 20) [1, 2, 3] = some (0, 1) ∧
      Bld.retainedB (some 10) (some 20) [1, 2, 3] 0 = true ∧
      Bld.inWindowB (some 10) (some 20)
        (([1, 2, 3] : List ℚ).get ⟨0, by decide⟩) = false := by
  decide

/-- C4 witness: the window characterisation instantiated on the sorted
list `[5, 15, 25]` Hz with bounds `[10, 20]` at index `1`. -/
theorem modeRange_window_iff_witness :
    Bld.retainedB (some 10) (some 20) [5, 15, 25] 1 = true ↔
      Bld.inWindowB (some 10) (some 20)
        (([5, 15, 25] : List ℚ).get ⟨1, by decide⟩) = true :=
  modeRange_window_iff (some 10) (some 20) [5, 15, 25]
    (by decide) (by decide) 1 (by decide)

/-- A builder requesting the elevation drive/encoder channels with the
eigen-frequency window `[10, 20]` Hz. -/
noncomputable def bldEmptyWindow : Bld.StructuralBuilder where
  built :=
    { inputs := ["OSS_ElDrive_Torque"]
      outputs := ["OSS_ElEncoder_Angle"]
      b := []
      c := []
      g_ssol := none
      static_gain_mismatch := none
      w := []
      z := 2 / 100
      optical_senses := none }
  min_eigen_frequency := some 10
  max_eigen_frequency := some 20
  file_name := "structural"

/-- A raw FEM whose three eigenfrequencies `[1, 2, 3]` Hz all lie below the
window `[10, 20]` Hz of `bldEmptyWindow`. -/
noncomputable def femEmptyWindow : Bld.FEM where
  input_names := ["OSS_ElDrive_Torque"]
  output_names := ["OSS_ElEncoder_Angle"]
  eigen_frequencies := [1, 2, 3]
  inputs2modes := [[1], [2], [3]]
  modes2outputs := [[4, 5, 6]]
  reduced_static_gain := none

/-- C3: the eigen-frequency window `[10, 20]` Hz contains none of the FEM's
eigenfrequencies `[1, 2, 3]` Hz, yet `StructuralBuilder::build` does not
return an error reporting the bound values: it returns `Ok` with mode range
`[0, 1)`, retaining the 1 Hz mode that violates the window (the
`unwrap_or_default` calls in the window computation silently turn the empty
window into index 0 and count 1). -/
theorem build_empty_window_returns_ok :
    bldEmptyWindow.build femEmptyWindow =
      .ok { bldEmptyWindow.built with
            b := [[1]]
            c := [[4]]
            g_ssol := none
            w := [2 * Real.pi * ((1 : ℚ) : ℝ)] } := rfl

/-- C9: for every builder configuration and FEM, a successful
`StructuralBuilder::build` leaves `inputs`, `outputs`, `z`,
`static_gain_mismatch` and `optical_senses` exactly as set on the builder
(`..self.built`), populates `g_ssol` from the FEM's reduced static gain,
and — since the only builder constructors are `StructuralBuilder::new` and
the `TryFrom<&Cli>` literal, and `enable_static_gain_mismatch_compensation`
is commented out — `static_gain_mismatch` is `None` on every constructed
builder, hence on every built model. -/
theorem build_preserves_builder_config :
    (∀ (bld : Bld.StructuralBuilder) (fem : Bld.FEM) (st : Bld.StructuralD),
        bld.build fem = .ok st →
        st.inputs = bld.built.inputs ∧ st.outputs = bld.built.outputs ∧
        st.z = bld.built.z ∧
        st.static_gain_mismatch = bld.built.static_gain_mismatch ∧
        st.optical_senses = bld.built.optical_senses ∧
        st.g_ssol = fem.reduced_static_gain) ∧
    (∀ i o, (Bld.StructuralBuilder.new i o).built.static_gain_mismatch = none) ∧
    (∀ i o z os minF maxF,
        (Bld.structuralBuilderFromCli i o z os minF maxF).built.static_gain_mismatch
          = none) := by
  refine ⟨?_, fun i o => rfl, fun i o z os minF maxF => rfl⟩
  intro bld fem st h
  unfold Bld.StructuralBuilder.build at h
  split at h
  · exact absurd h (by simp)
  · split at h
    · exact absurd h (by simp)
    · split at h
      · injection h with h
        subst h
        exact ⟨rfl, rfl, rfl, rfl, rfl, rfl⟩
      · injection h with h
        subst h
        exact ⟨rfl, rfl, rfl, rfl, rfl, rfl⟩

/-- A builder and FEM with a single 5 Hz mode and no window. -/
noncomputable def bldPlain : Bld.StructuralBuilder :=
  Bld.StructuralBuilder.new ["In1"] ["Out1"]

/-- The FEM for `bldPlain`. -/
noncomputable def femPlain : Bld.FEM where
  input_names := ["In1"]
  output_names := ["Out1"]
  eigen_frequencies := [5]
  inputs2modes := [[1]]
  modes2outputs := [[2]]
  reduced_static_gain := none

/-- The model built from `bldPlain` and `femPlain`. -/
noncomputable def builtPlain : Bld.StructuralD :=
  { bldPlain.built with
    b := [[1]]
    c := [[2]]
    g_ssol := none
    w := [2 * Real.pi * ((5 : ℚ) : ℝ)] }

/-- C9 witness: the frame property evaluated on the concrete build of
`bldPlain` against `femPlain`. -/
theorem build_preserves_builder_config_witness :
    builtPlain.static_gain_mismatch = bldPlain.built.static_gain_mismatch ∧
      builtPlain.inputs = bldPlain.built.inputs :=
  ⟨(build_preserves_builder_config.1 bldPlain femPlain builtPlain rfl).2.2.2.1,
   (build_preserves_builder_config.1 bldPlain femPlain builtPlain rfl).1⟩

/-! ## Frequency sweep layer (`src/frequency_response.rs` and
`src/data.rs`). -/

/-- `2π` (frequency_response.rs `DPI`). -/
noncomputable def DPI : ℝ := 2 * Real.pi

/-- Frequency sampling options in Hz (`Frequencies`,
frequency_response.rs lines 22-48). -/
inductive Frequencies where
  | Single (value : ℝ)
  | LogSpace (lower upper : ℝ) (n : ℕ)
  | LinSpace (lower upper : ℝ) (n : ℕ)
  | Set (values : List ℝ)

/-- Cartesian-to-polar transformation interface (`Cartesian2Polar`,
data.rs lines 63-67): `α` is the complex response type, `β` the
magnitude/phase type. -/
class Cartesian2Polar (α : Type) (β : outParam Type) where
  magnitude : α → β
  phase : α → β

/-- The scalar instance (data.rs lines 103-113): norm and argument of a
complex number. -/
noncomputable instance : Cartesian2Polar ℂ ℝ where
  magnitude h := Complex.abs h
  phase h := Complex.arg h

/-- A frequency response data point (`FrequencyResponseData`, data.rs lines
115-123): the frequency in Hz together with the magnitude and phase
derived from the complex response; the complex response itself is not a
field of the structure. -/
structure FrequencyResponseData (β : Type) where
  frequency : ℝ
  magnitude : β
  phase : β

/-- `FrequencyResponseData::new` (data.rs lines 124-133): derives magnitude
and phase from the complex response at construction. -/
def FrequencyResponseData.new {α β : Type} [Cartesian2Polar α β]
    (frequency : ℝ) (response : α) : FrequencyResponseData β :=
  { frequency := frequency
    magnitude := Cartesian2Polar.magnitude response
    phase := Cartesian2Polar.phase response }

/-- Collection of frequency response data points (`FrequencyResponseVec`,
data.rs lines 144-163). -/
structure FrequencyResponseVec (β : Type) where
  data : List (FrequencyResponseData β)

/-- The frequency sweep `FrequencyResponse::frequency_response`
(frequency_response.rs lines 92-144), parameterised over the component's
`j_omega`.  For each requested frequency `ν` (Hz) it evaluates the
component at `jw = i·2π·ν` and builds a `FrequencyResponseData`; the
`assert!(upper > lower)` of the grid branches is modelled as an error
value; the `rayon` parallel iteration materialises its results in input
order and is modelled by `List.map`. -/
noncomputable def frequencyResponse {α β : Type} [Cartesian2Polar α β]
    (j_omega : ℂ → α) (nu : Frequencies) :
    Except String (FrequencyResponseVec β) :=
  match nu with
  | .Single value =>
    .ok ⟨[FrequencyResponseData.new value (j_omega ⟨0, DPI * value⟩)]⟩
  | .LogSpace lower upper n =>
    if upper > lower then
      let log_step := (Real.logb 10 upper - Real.logb 10 lower) / ((n - 1 : ℕ) : ℝ)
      .ok ⟨(List.range n).map fun (i : ℕ) =>
        let log_nu := Real.logb 10 lower + log_step * (i : ℝ)
        let nuv := (10 : ℝ) ^ log_nu
        FrequencyResponseData.new nuv (j_omega ⟨0, DPI * nuv⟩)⟩
    else .error ("assertion failed: upper > lower")
  | .LinSpace lower upper n =>
    if upper > lower then
      let step := (upper - lower) / ((n - 1 : ℕ) : ℝ)
      .ok ⟨(List.range n).map fun (i : ℕ) =>
        let nuv := lower + step * (i : ℝ)
        FrequencyResponseData.new nuv (j_omega ⟨0, DPI * nuv⟩)⟩
    else .error ("assertion failed: upper > lower")
  | .Set values =>
    .ok ⟨values.map fun nuv => FrequencyResponseData.new nuv (j_omega ⟨0, DPI * nuv⟩)⟩

/-- Number of data points of a successful sweep (zero on error). -/
def okLength {β : Type} (e : Except String (FrequencyResponseVec β)) : ℕ :=
  match e with
  | .ok v => v.data.length
  | .error _ => 0

/-- C10: for every component, a sweep over `Frequencies::Set` with an empty
values list succeeds with an empty `FrequencyResponseVec` — no error, and
`j_omega` is never evaluated (the result is independent of `j_omega`). -/
theorem frequency_response_empty_set {α β : Type} [Cartesian2Polar α β]
    (j_omega : ℂ → α) :
    frequencyResponse j_omega (Frequencies.Set []) = .ok ⟨[]⟩ := rfl

/-- C5 (amended): for the LogSpace and LinSpace grids, `upper ≤ lower` is
rejected (the `assert!` panic, modelled as the error value), but `n` is not
validated: for every `n` — including `0` and `1` — a grid with
`upper > lower` yields a successful sweep of exactly `n` points.  (For
`n ≤ 1` the step formula divides by zero; in the `f64` source this makes
the single `n = 1` frequency NaN, still without any error.) -/
theorem frequency_response_grid_validation {α β : Type} [Cartesian2Polar α β]
    (j_omega : ℂ → α) (lower upper : ℝ) (n : ℕ) :
    ((frequencyResponse j_omega (.LogSpace lower upper n)).isOk = true ↔
      lower < upper) ∧
    ((frequencyResponse j_omega (.LinSpace lower upper n)).isOk = true ↔
      lower < upper) ∧
    (lower < upper →
      okLength (frequencyResponse j_omega (.LogSpace lower upper n)) = n ∧
      okLength (frequencyResponse j_omega (.LinSpace lower upper n)) = n) := by
  refine ⟨?_, ?_, fun h => ⟨?_, ?_⟩⟩
  · by_cases h : lower < upper <;>
      simp [frequencyResponse, h, Except.isOk, Except.toBool]
  · by_cases h : lower < upper <;>
      simp [frequencyResponse, h, Except.isOk, Except.toBool]
  · simp only [frequencyResponse, if_pos (show upper > lower from h), okLength]
    rw [List.length_map, List.length_range]
  · simp only [frequencyResponse, if_pos (show upper > lower from h), okLength]
    rw [List.length_map, List.length_range]

/-- C5 counterexample: the grids with `n = 1` (LogSpace) and `n = 0`
(LinSpace) violate the claimed `n ≥ 2` precondition yet are not rejected:
the sweep succeeds, producing one point and zero points respectively. -/
theorem frequency_response_invalid_n_accepted :
    (frequencyResponse (fun z : ℂ => z) (.LogSpace 1 10 1)).isOk = true ∧
      okLength (frequencyResponse (fun z : ℂ => z) (.LogSpace 1 10 1)) = 1 ∧
      (frequencyResponse (fun z : ℂ => z) (.LinSpace 1 10 0)).isOk = true ∧
      okLength (frequencyResponse (fun z : ℂ => z) (.LinSpace 1 10 0)) = 0 := by
  have h : (1 : ℝ) < 10 := by norm_num
  have hfull := frequency_response_grid_validation (fun z : ℂ => z) 1 10
  exact ⟨(hfull 1).1.mpr h, ((hfull 1).2.2 h).1, (hfull 0).2.1.mpr h,
    ((hfull 0).2.2 h).2⟩

/-- C5 witness: a valid LogSpace grid (`1 < 100`, `n = 5`) is accepted and
yields five points. -/
theorem frequency_response_grid_validation_witness :
    (frequencyResponse (fun z : ℂ => z) (.LogSpace 1 100 5)).isOk = true ∧
      okLength (frequencyResponse (fun z : ℂ => z) (.LogSpace 1 100 5)) = 5 :=
  ⟨(frequency_response_grid_validation (fun z : ℂ => z) 1 100 5).1.mpr
      (by norm_num),
   ((frequency_response_grid_validation (fun z : ℂ => z) 1 100 5).2.2
      (by norm_num)).1⟩

/-! ## Elementary transfer function: first-order low-pass
(`src/frequency_response.rs`, lines 165-184). -/

/-- First order low-pass filter (`FirstOrderLowPass`). -/
structure FirstOrderLowPass where
  corner_frequency_hz : ℝ

/-- `FirstOrderLowPass::new`: 4 kHz corner frequency. -/
noncomputable def FirstOrderLowPass.new : FirstOrderLowPass :=
  { corner_frequency_hz := 4e3 }

/-- `FirstOrderLowPass::j_omega`: `jw / (1 + jw / (2π * corner))`. -/
noncomputable def FirstOrderLowPass.j_omega (f : FirstOrderLowPass) (jw : ℂ) : ℂ :=
  jw / (1 + jw / ((DPI * f.corner_frequency_hz : ℝ) : ℂ))

/-- The response of the default low-pass at `ν = 0` Hz is exactly `0`. -/
theorem folp_dc :
    FirstOrderLowPass.new.j_omega ⟨0, DPI * 0⟩ = 0 := by
  have hjw : (⟨0, DPI * 0⟩ : ℂ) = 0 := by
    apply Complex.ext <;> simp
  unfold FirstOrderLowPass.j_omega
  rw [hjw]
  simp

/-- The response of the default low-pass at the corner frequency
`ν = 4000` Hz, in closed form: `(2π·4000)·I / (1 + I)`. -/
theorem folp_corner_closed_form :
    FirstOrderLowPass.new.j_omega ⟨0, DPI * 4000⟩
      = ((DPI * 4000 : ℝ) : ℂ) * Complex.I / (1 + Complex.I) := by
  have hw : (0 : ℝ) < DPI * 4000 := by
    have hdpi : (0 : ℝ) < DPI := by
      simp only [DPI]
      positivity
    exact mul_pos hdpi (by norm_num)
  have hne : ((DPI * 4000 : ℝ) : ℂ) ≠ 0 :=
    Complex.ofReal_ne_zero.mpr (ne_of_gt hw)
  have hjww : (⟨0, DPI * 4000⟩ : ℂ) = ((DPI * 4000 : ℝ) : ℂ) * Complex.I := by
    rw [Complex.mk_eq_add_mul_I]
    simp
  have hcrn : DPI * FirstOrderLowPass.new.corner_frequency_hz = DPI * 4000 := by
    norm_num [FirstOrderLowPass.new]
  simp only [FirstOrderLowPass.j_omega, hcrn, hjww]
  rw [mul_div_cancel_left₀ _ hne]

/-- `|1 + I| = √2`. -/
theorem abs_one_add_I : Complex.abs (1 + Complex.I) = Real.sqrt 2 := by
  rw [Complex.abs_apply]
  congr 1
  simp [Complex.normSq_apply]
  norm_num

/-- The magnitude of the default low-pass at the corner frequency is
`2π·4000 / √2`. -/
theorem folp_corner_abs :
    Complex.abs (FirstOrderLowPass.new.j_omega ⟨0, DPI * 4000⟩)
      = DPI * 4000 / Real.sqrt 2 := by
  have hw : (0 : ℝ) < DPI * 4000 := by
    have hdpi : (0 : ℝ) < DPI := by
      simp only [DPI]
      positivity
    exact mul_pos hdpi (by norm_num)
  rw [folp_corner_closed_form, map_div₀, map_mul, Complex.abs_ofReal,
    Complex.abs_I, mul_one, abs_one_add_I, abs_of_pos hw]

/-- The phase of the default low-pass at the corner frequency is `+π/4`. -/
theorem folp_corner_arg :
    Complex.arg (FirstOrderLowPass.new.j_omega ⟨0, DPI * 4000⟩)
      = Real.pi / 4 := by
  have hpi := Real.pi_pos
  have hw : (0 : ℝ) < DPI * 4000 := by
    have hdpi : (0 : ℝ) < DPI := by
      simp only [DPI]
      positivity
    exact mul_pos hdpi (by norm_num)
  have h1I : (1 + Complex.I) ≠ 0 := by
    intro hcon
    have := congrArg Complex.im hcon
    simp at this
  have hsqrt2 : Real.sqrt 2 * Real.sqrt 2 = 2 :=
    Real.mul_self_sqrt (by norm_num)
  have hs2pos : (0 : ℝ) < Real.sqrt 2 := Real.sqrt_pos.mpr (by norm_num)
  have h2c : (Real.sqrt 2 : ℂ) * (Real.sqrt 2 : ℂ) = 2 := by
    exact_mod_cast hsqrt2
  have hH2 : FirstOrderLowPass.new.j_omega ⟨0, DPI * 4000⟩
      = ((DPI * 4000 / 2 : ℝ) : ℂ) * (1 + Complex.I) := by
    rw [folp_corner_closed_form, div_eq_iff h1I]
    push_cast
    linear_combination (-((DPI : ℂ) * 4000) / 2) * Complex.I_sq
  have hcx : ((Real.sqrt 2 : ℝ) : ℂ) *
      (Complex.cos ((Real.pi / 4 : ℝ) : ℂ) +
        Complex.sin ((Real.pi / 4 : ℝ) : ℂ) * Complex.I) = 1 + Complex.I := by
    rw [← Complex.ofReal_cos, ← Complex.ofReal_sin,
      Real.cos_pi_div_four, Real.sin_pi_div_four]
    push_cast
    linear_combination ((1 : ℂ) / 2 + Complex.I / 2) * h2c
  have hIoc : Real.pi / 4 ∈ Set.Ioc (-Real.pi) Real.pi :=
    ⟨by linarith, by linarith⟩
  rw [hH2, Complex.arg_real_mul _ (by linarith : (0 : ℝ) < DPI * 4000 / 2)]
  rw [← hcx]
  exact Complex.arg_mul_cos_add_sin_mul_I hs2pos hIoc

/-- C7 (amended): for the default first-order low-pass (corner `2π·4000`
rad/s), `j_omega` at `ν = 0` Hz returns exactly `0 + 0j`; at `ν = 4000` Hz
the returned value has magnitude `2π·4000 / √2` — not `1/√2` as claimed —
and phase `+π/4`.  The magnitude statement is exact, which subsumes any
`1e-12` tolerance around the correct value. -/
theorem folp_response_at_dc_and_corner :
    FirstOrderLowPass.new.j_omega ⟨0, DPI * 0⟩ = 0 ∧
    Complex.abs (FirstOrderLowPass.new.j_omega ⟨0, DPI * 4000⟩)
      = DPI * 4000 / Real.sqrt 2 ∧
    Complex.arg (FirstOrderLowPass.new.j_omega ⟨0, DPI * 4000⟩)
      = Real.pi / 4 :=
  ⟨folp_dc, folp_corner_abs, folp_corner_arg⟩

/-- C7 counterexample: at `ν = 4000` Hz the magnitude of the default
low-pass response is `2π·4000/√2 ≈ 1.8·10^4`, which is not within `1e-12`
of the claimed `1/√2`: the filter `jw / (1 + jw/ωc)` is not normalised to
unit passband gain. -/
theorem folp_corner_magnitude_cex :
    ¬ |Complex.abs (FirstOrderLowPass.new.j_omega ⟨0, DPI * 4000⟩)
        - 1 / Real.sqrt 2| ≤ 1e-12 := by
  rw [folp_corner_abs, not_le]
  have hsqrt2 : Real.sqrt 2 * Real.sqrt 2 = 2 :=
    Real.mul_self_sqrt (by norm_num)
  have hs2pos : (0 : ℝ) < Real.sqrt 2 := Real.sqrt_pos.mpr (by norm_num)
  have hs2le : Real.sqrt 2 ≤ 2 := by nlinarith [Real.sqrt_nonneg 2]
  have hs2ge : 1 ≤ Real.sqrt 2 := by nlinarith [Real.sqrt_nonneg 2]
  have hwbig : (24000 : ℝ) ≤ DPI * 4000 := by
    simp only [DPI]
    nlinarith [Real.pi_gt_three]
  have hqbig : (12000 : ℝ) ≤ DPI * 4000 / Real.sqrt 2 := by
    rw [le_div_iff₀ hs2pos]
    nlinarith
  have hsmall : 1 / Real.sqrt 2 ≤ 1 := by
    rw [div_le_one hs2pos]
    exact hs2ge
  have hpos : 0 ≤ 1 / Real.sqrt 2 := by positivity
  calc (1e-12 : ℝ) < 11999 := by norm_num
    _ ≤ DPI * 4000 / Real.sqrt 2 - 1 / Real.sqrt 2 := by linarith
    _ ≤ |DPI * 4000 / Real.sqrt 2 - 1 / Real.sqrt 2| := le_abs_self _

/-- C8 (amended): each `FrequencyResponseData` point produced by the sweep
stores the frequency together with the magnitude and phase computed from
the complex response at the moment of construction, during the sweep; the
complex matrix itself is not stored.  (No information is lost: the second
conjunct recovers the complex value from its polar data.) -/
theorem frequency_response_stores_polar {α β : Type} [Cartesian2Polar α β]
    (j_omega : ℂ → α) (v : ℝ) :
    frequencyResponse j_omega (.Single v) =
      .ok ⟨[{ frequency := v
              magnitude := Cartesian2Polar.magnitude (j_omega ⟨0, DPI * v⟩)
              phase := Cartesian2Polar.phase (j_omega ⟨0, DPI * v⟩) }]⟩ ∧
    ∀ z : ℂ, ((Complex.abs z : ℝ) : ℂ)
        * Complex.exp (((Complex.arg z : ℝ) : ℂ) * Complex.I) = z :=
  ⟨rfl, fun z => Complex.abs_mul_exp_arg_mul_I z⟩

/-- C8 counterexample: the data point emitted by the sweep for the default
low-pass at `ν = 4000` Hz already consists of the frequency, the magnitude
`|H|` and the phase `arg H` — magnitude and phase are computed during the
sweep (inside `FrequencyResponseData::new`), and no complex `H` field is
stored, refuting the claim that the complex matrix is retained with polar
data derived only at export time. -/
theorem frequency_response_polar_in_sweep_cex :
    frequencyResponse FirstOrderLowPass.new.j_omega (.Single 4000) =
      .ok ⟨[{ frequency := 4000
              magnitude :=
                Complex.abs (FirstOrderLowPass.new.j_omega ⟨0, DPI * 4000⟩)
              phase :=
                Complex.arg (FirstOrderLowPass.new.j_omega ⟨0, DPI * 4000⟩) }]⟩ :=
  rfl

/-! ## CLI output expansion (`src/cli.rs`, lines 96-116). -/

/-- Modelled from the spec: the `Outputs` enum is generated at build time
(build.rs) from the FEM schema shipped with the artefact and is not part of
`src/`; it holds one variant per mechanical output channel plus the three
virtual optical outputs.  The two mechanical channels the virtual outputs
expand to, `OSSM1Lcl` and `MCM2Lcl6D`, are singled out; `Mech` stands for
any other mechanical variant with its registry name. -/
inductive Outputs where
  | OSSM1Lcl
  | MCM2Lcl6D
  | Mech (channel : String)
  | TipTilt
  | SegmentTipTilt
  | SegmentPiston
deriving DecidableEq

/-- Modelled from the spec: `Outputs::name` (generated by build.rs) maps
each variant to its channel name; the three virtual outputs map to
`tip-tilt`, `segment_tip-tilt` and `segment_piston`. -/
def Outputs.name : Outputs → String
  | .OSSM1Lcl => "OSSM1Lcl"
  | .MCM2Lcl6D => "MCM2Lcl6D"
  | .Mech channel => channel
  | .TipTilt => "tip-tilt"
  | .SegmentTipTilt => "segment_tip-tilt"
  | .SegmentPiston => "segment_piston"

/-- The virtual optical output variants (the pattern
`Outputs::TipTilt | Outputs::SegmentTipTilt | Outputs::SegmentPiston` of
cli.rs line 107). -/
def Outputs.isVirtual : Outputs → Bool
  | .TipTilt | .SegmentTipTilt | .SegmentPiston => true
  | _ => false

/-- The command line interface (`Cli`, cli.rs lines 64-88), restricted to
the field `fem_outputs` reads. -/
structure Cli where
  outputs : List Outputs

/-- `Cli::fem_outputs` (cli.rs lines 96-116): the requested output names
with the three virtual optical names filtered out, followed by the pair
`OSSM1Lcl`, `MCM2Lcl6D` pushed once per requested virtual output, then
`Vec::dedup` — which removes only *consecutive* duplicates (modelled by
`List.destutter (· ≠ ·)`). -/
def Cli.fem_outputs (cli : Cli) : List String :=
  (((cli.outputs.map Outputs.name).filter fun nm =>
      !(nm == "tip-tilt" || nm == "segment_tip-tilt" || nm == "segment_piston")) ++
    (cli.outputs.flatMap fun output =>
      if output.isVirtual then [Outputs.OSSM1Lcl.name, Outputs.MCM2Lcl6D.name]
      else [])).destutter (· ≠ ·)

/-- Every element of a list survives `destutter (· ≠ ·)`: an element is
dropped only when it equals the currently committed element, which is
itself kept. -/
theorem mem_destutter_ne' {α : Type} [DecidableEq α] (x : α) :
    ∀ (l : List α) (a : α), x ∈ a :: l → x ∈ l.destutter' (· ≠ ·) a := by
  intro l
  induction l with
  | nil =>
    intro a hx
    simpa using hx
  | cons b t ih =>
    intro a hx
    by_cases hab : a ≠ b
    · rw [List.destutter'_cons_pos t hab]
      rcases List.mem_cons.mp hx with rfl | hxt
      · exact List.mem_cons_self _ _
      · exact List.mem_cons_of_mem _ (ih b hxt)
    · have hab' : a = b := not_not.mp hab
      subst hab'
      rw [List.destutter'_cons_neg t (by simp)]
      rcases List.mem_cons.mp hx with rfl | hxt
      · exact ih x (List.mem_cons_self _ _)
      · exact ih a hxt

/-- Membership is preserved by `destutter (· ≠ ·)`. -/
theorem mem_destutter_ne {α : Type} [DecidableEq α] {x : α} {l : List α}
    (hx : x ∈ l) : x ∈ l.destutter (· ≠ ·) := by
  cases l with
  | nil => simp at hx
  | cons a t =>
    rw [List.destutter_cons']
    exact mem_destutter_ne' x t a hx

/-- C6 (amended): `Cli::fem_outputs` returns the requested mechanical
output names (virtual optical names filtered out, order preserved)
followed by one `OSSM1Lcl`, `MCM2Lcl6D` pair per requested virtual output,
with only *consecutive* duplicates removed (`Vec::dedup`): no two adjacent
names are equal, every virtual request contributes both mechanical
channels, and every returned name is either a requested non-virtual name
or one of the two expansion channels — but a name may still appear more
than once when the collisions are not adjacent
(`fem_outputs_duplicate_cex`). -/
theorem fem_outputs_expansion (cli : Cli) :
    List.Chain' (· ≠ ·) cli.fem_outputs ∧
    (∀ o ∈ cli.outputs, o.isVirtual = true →
      "OSSM1Lcl" ∈ cli.fem_outputs ∧ "MCM2Lcl6D" ∈ cli.fem_outputs) ∧
    (∀ x ∈ cli.fem_outputs,
      (∃ o ∈ cli.outputs, o.name = x ∧
        (!(x == "tip-tilt" || x == "segment_tip-tilt"
          || x == "segment_piston")) = true) ∨
      x = "OSSM1Lcl" ∨ x = "MCM2Lcl6D") := by
  unfold Cli.fem_outputs
  refine ⟨List.destutter_is_chain' _ _, ?_, ?_⟩
  · intro o ho hv
    constructor
    · apply mem_destutter_ne
      apply List.mem_append_right
      exact List.mem_flatMap.mpr ⟨o, ho, by simp [hv, Outputs.name]⟩
    · apply mem_destutter_ne
      apply List.mem_append_right
      exact List.mem_flatMap.mpr ⟨o, ho, by simp [hv, Outputs.name]⟩
  · intro x hx
    have hx2 := (List.destutter_sublist (fun x1 x2 : String => x1 ≠ x2)
      (((cli.outputs.map Outputs.name).filter fun nm =>
          !(nm == "tip-tilt" || nm == "segment_tip-tilt"
            || nm == "segment_piston")) ++
        (cli.outputs.flatMap fun output =>
          if output.isVirtual then
            [Outputs.OSSM1Lcl.name, Outputs.MCM2Lcl6D.name]
          else []))).subset hx
    rcases List.mem_append.mp hx2 with hleft | hright
    · left
      obtain ⟨hmem, hpred⟩ := List.mem_filter.mp hleft
      obtain ⟨o, ho, hname⟩ := List.mem_map.mp hmem
      exact ⟨o, ho, hname, hpred⟩
    · right
      obtain ⟨o, ho, hxin⟩ := List.mem_flatMap.mp hright
      by_cases hv : o.isVirtual = true
      · rw [if_pos hv] at hxin
        rcases List.mem_cons.mp hxin with rfl | hxin2
        · exact Or.inl rfl
        · rcases List.mem_cons.mp hxin2 with rfl | hxin3
          · exact Or.inr rfl
          · simp at hxin3
      · rw [if_neg hv] at hxin
        simp at hxin

/-- A CLI requesting two virtual optical outputs. -/
def cliTwoVirtual : Cli := ⟨[Outputs.TipTilt, Outputs.SegmentTipTilt]⟩

/-- C6 counterexample: with outputs `tip-tilt` and `segment_tip-tilt`, the
expansion pushes `OSSM1Lcl, MCM2Lcl6D, OSSM1Lcl, MCM2Lcl6D` and
`Vec::dedup` removes nothing (no two adjacent entries are equal):
`OSSM1Lcl` appears twice, refuting the claimed global de-duplication. -/
theorem fem_outputs_duplicate_cex :
    cliTwoVirtual.fem_outputs
        = ["OSSM1Lcl", "MCM2Lcl6D", "OSSM1Lcl", "MCM2Lcl6D"] ∧
      cliTwoVirtual.fem_outputs.count ("OSSM1Lcl") = 2 :=
  ⟨rfl, rfl⟩

/-- A CLI mixing a plain mechanical output with a virtual one. -/
def cliMixed : Cli := ⟨[Outputs.Mech ("OSS_Hardpoint_D"), Outputs.TipTilt]⟩

/-- C6 witness: the expansion properties evaluated on `cliMixed`. -/
theorem fem_outputs_expansion_witness :
    "OSSM1Lcl" ∈ cliMixed.fem_outputs ∧
      List.Chain' (· ≠ ·) cliMixed.fem_outputs :=
  ⟨((fem_outputs_expansion cliMixed).2.1 Outputs.TipTilt (by decide) rfl).1,
   (fem_outputs_expansion cliMixed).1⟩

end GmtFem
